import Mathlib

/-!
Shallow embedding of the founder-identification pipeline of
src/unravel_agent/scout.py: the deterministic string logic of
_fetch_html (retry/backoff/sentinel), _has_pr_name_parts, and the
candidate aggregation / resolution / PR-selection stages of
find_founder.  Text produced by the language model (extractor output,
selector answer) is passed in as explicit input; exceptions raised by
the Python code are modelled with Except.  Python string operations are
reimplemented over the character list of a String so that every
definition evaluates inside the kernel.
-/

/-- One candidate record, as built by find_founder.  A Python dict with
the optional keys "email"/"selected" is modelled with Option/Bool
defaults (absent key = none / false). -/
structure CandidateEntry where
  name : Option String
  reason : String
  email : Option String
  selected : Bool
deriving DecidableEq, Repr

/-- Contiguous-subsequence test on char lists. -/
def containsSeq (needle hay : List Char) : Bool :=
  (List.range (hay.length + 1)).any (fun i => needle.isPrefixOf (hay.drop i))

/-- The Python containment test for strings. -/
def strContains (needle hay : String) : Bool :=
  containsSeq needle.toList hay.toList

/-- Python str.lower (ASCII range, as every string in the pipeline is ASCII). -/
def strToLower (s : String) : String := ⟨s.toList.map Char.toLower⟩

/-- Python str.upper (ASCII range). -/
def strToUpper (s : String) : String := ⟨s.toList.map Char.toUpper⟩

/-- Drop leading and trailing whitespace from a char list. -/
def trimChars (l : List Char) : List Char :=
  ((l.dropWhile Char.isWhitespace).reverse.dropWhile Char.isWhitespace).reverse

/-- Python str.strip with no arguments. -/
def strTrim (s : String) : String := ⟨trimChars s.toList⟩

/-- Python str.split with no arguments: split on whitespace runs,
discarding empty pieces. -/
def pySplitWs (s : String) : List String :=
  ((s.toList.splitOnP Char.isWhitespace).filter (fun t => t ≠ [])).map (fun cs => ⟨cs⟩)

/-- Python str.splitlines for the newline characters that occur in this
data of this pipeline. -/
def pySplitLines (s : String) : List String :=
  (s.toList.splitOnP (fun c => c == '\n' || c == '\r')).map (fun cs => ⟨cs⟩)

/-- Split a char list at the first occurrence of the separator sequence,
returning the pieces before and after it (Python str.split(sep, 1)). -/
def breakAtSeq (sep : List Char) : List Char → Option (List Char × List Char)
  | [] => none
  | c :: cs =>
    if sep.isPrefixOf (c :: cs) then some ([], (c :: cs).drop sep.length)
    else
      match breakAtSeq sep cs with
      | some (b, a) => some (c :: b, a)
      | none => none

/-- Embeds scout._has_pr_name_parts (scout.py lines 196-202): "pr"
occurs in the first or in the last whitespace-separated token of the
stripped, lower-cased name. -/
def _has_pr_name_parts (name : String) : Bool :=
  match pySplitWs (strToLower (strTrim name)) with
  | [] => false
  | [p] => strContains "pr" p
  | p :: q :: rest => strContains "pr" p || strContains "pr" ((q :: rest).getLastD "")

/-- Embeds the per-line parsing step of find_founder (scout.py lines
262-281), turning one deduplicated extractor line into a candidate
record. -/
def parseLine (line : String) : CandidateEntry :=
  if strContains "::" line then
    let pair := (breakAtSeq "::".toList line.toList).getD ([], [])
    let name := strTrim ⟨pair.1⟩
    let reason := strTrim ⟨pair.2⟩
    if strToLower name = "none" then
      { name := none, reason := reason, email := none, selected := false }
    else
      { name := some name, reason := reason, email := none, selected := false }
  else if strContains "none" (strToLower line) || strContains "does not" (strToLower line) ||
      strContains "no information" (strToLower line) ||
      strContains "not explicitly" (strToLower line) then
    { name := none, reason := strTrim line, email := none, selected := false }
  else
    { name := some (strTrim line), reason := "Supporting evidence found in source text.",
      email := none, selected := false }

/-- Embeds the per-section line gathering of find_founder (scout.py
lines 233-248): a failed extraction call contributes no lines; a
successful one contributes its stripped non-empty output lines. -/
def extractLines (r : Except String String) : List String :=
  match r with
  | Except.error _ => []
  | Except.ok s => ((pySplitLines s).map strTrim).filter (fun t => t ≠ "")

/-- Embeds the case-insensitive order-preserving deduplication of
find_founder (scout.py lines 250-257); seen is the set of lower-cased
lines already kept. -/
def dedupeLines (seen : List String) : List String → List String
  | [] => []
  | l :: rest =>
    if strToLower l ∈ seen then dedupeLines seen rest
    else l :: dedupeLines (strToLower l :: seen) rest

/-- The placeholder entry synthesized when no populated-name candidate
survives (scout.py lines 287-291). -/
def mkPlaceholder (all_candidates : List CandidateEntry) : CandidateEntry :=
  { name := none,
    reason := match all_candidates.head? with
              | none => "No founder information found."
              | some c => c.reason,
    email := none, selected := false }

/-- Embeds the Candidate Resolver stage of find_founder (scout.py lines
262-291): parse the deduplicated lines, keep populated-name entries,
and fall back to a single placeholder when none survive. -/
def resolveEntries (deduped : List String) : List CandidateEntry :=
  if ((deduped.map parseLine).filter (fun c => c.name.isSome)).isEmpty then
    [mkPlaceholder (deduped.map parseLine)]
  else (deduped.map parseLine).filter (fun c => c.name.isSome)

/-- Embeds the token-to-entry comparison of the PR selection loop
(scout.py line 323).  Accessing the first word of the entry name raises
IndexError when the name has no words, and attribute access raises when
the name is Python None; both are modelled as Except.error. -/
def entryMatch (tok : String) (f : CandidateEntry) : Except Unit Bool :=
  match f.name with
  | none => Except.error ()
  | some nm =>
    match (pySplitWs nm).head? with
    | none => Except.error ()
    | some w =>
      Except.ok ((strToLower tok == strToLower w) ||
                 strContains (strToLower tok) (strToLower nm))

/-- Embeds the inner entry loop of the PR selection (scout.py lines
321-326): index of the first entry matching the token, or the
propagated comparison error. -/
def findMatchIdx (tok : String) : List CandidateEntry → Except Unit (Option Nat)
  | [] => Except.ok none
  | f :: rest =>
    match entryMatch tok f with
    | Except.error e => Except.error e
    | Except.ok true => Except.ok (some 0)
    | Except.ok false =>
      match findMatchIdx tok rest with
      | Except.error e => Except.error e
      | Except.ok none => Except.ok none
      | Except.ok (some i) => Except.ok (some (i + 1))

/-- Embeds the outer token loop of the PR selection (scout.py lines
315-329): the first verified token together with the index of the entry
it matched, if any. -/
def selectLoop (entries : List CandidateEntry) : List String → Except Unit (Option (String × Nat))
  | [] => Except.ok none
  | tok :: rest =>
    if _has_pr_name_parts tok then
      match findMatchIdx tok entries with
      | Except.error e => Except.error e
      | Except.ok (some i) => Except.ok (some (tok, i))
      | Except.ok none => selectLoop entries rest
    else selectLoop entries rest

/-- Embeds the answer tokenization of the PR selection (scout.py line
310): stripped non-empty lines of the raw model answer. -/
def pickedNames (raw : String) : List String :=
  ((pySplitLines raw).map strTrim).filter (fun t => t ≠ "")

/-- Mutation applied to the matched entry (scout.py lines 332-334):
email derived from the lower-cased matched token, selected set. -/
def updEntry (tok : String) (e : CandidateEntry) : CandidateEntry :=
  { e with email := some (strToLower tok ++ "@unravel.tech"), selected := true }

/-- Marks the entry at the given index selected with the derived email
address (scout.py lines 331-334); out-of-range indices leave the list
unchanged. -/
def applySelection : List CandidateEntry → Nat → String → List CandidateEntry
  | [], _, _ => []
  | f :: rest, 0, tok => updEntry tok f :: rest
  | f :: rest, i + 1, tok => f :: applySelection rest i tok

/-- Embeds the PR Selector stage of find_founder (scout.py lines
304-339), taking the resolved entries and the model selector answer. -/
def selectPR (entries : List CandidateEntry) (answer : String) :
    Except Unit (List CandidateEntry) :=
  if strTrim answer = "" ∨ strToUpper (strTrim answer) = "NONE" then Except.ok entries
  else
    match selectLoop entries (pickedNames (strTrim answer)) with
    | Except.error e => Except.error e
    | Except.ok none => Except.ok entries
    | Except.ok (some (tok, i)) => Except.ok (applySelection entries i tok)

/-- Embeds find_founder (scout.py lines 210-339) as a function of the
per-section extraction outcomes and the selector answer. -/
def find_founder (extracted : List (Except String String)) (answer : String) :
    Except Unit (List CandidateEntry) :=
  if (((dedupeLines [] (extracted.flatMap extractLines)).map parseLine).filter
      (fun c => c.name.isSome)).isEmpty then
    Except.ok (resolveEntries (dedupeLines [] (extracted.flatMap extractLines)))
  else
    selectPR (((dedupeLines [] (extracted.flatMap extractLines)).map parseLine).filter
      (fun c => c.name.isSome)) answer

/-- Retry loop of _fetch_html (scout.py lines 111-132) over an attempt
oracle: attempt is the current attempt index, the second argument the
number of attempts still allowed after it.  Returns the resulting text
together with the back-off delays slept between attempts, in tenths of
a second (the source sleeps 0.8 * 2 ^ attempt seconds). -/
def fetchGo (att : Nat → Except String String) (attempt : Nat) : Nat → String × List Nat
  | 0 =>
    match att attempt with
    | Except.ok t => (t, [])
    | Except.error e => ("[fetch error: " ++ e ++ "]", [])
  | left + 1 =>
    match att attempt with
    | Except.ok t => (t, [])
    | Except.error _ =>
      let p := fetchGo att (attempt + 1) left
      (p.1, (8 * 2 ^ attempt) :: p.2)

/-- Embeds _fetch_html (scout.py lines 93-132): a readable cache entry
is returned directly; otherwise the retry loop runs retries + 1
attempts.  A cache miss and an unreadable cache entry both appear as
none (the source treats a failed cache read as a miss). -/
def _fetch_html (cache : Option String) (att : Nat → Except String String)
    (retries : Nat) : String :=
  match cache with
  | some t => t
  | none => (fetchGo att 0 retries).1

/-- An entry with a populated name that has at least one
whitespace-separated word; the selector comparison cannot raise on such
entries. -/
def goodEntry (c : CandidateEntry) : Bool :=
  match c.name with
  | none => false
  | some s => !(pySplitWs s).isEmpty


/-! Helper lemmas about deduplication. -/

theorem dedupeLines_sublist (ls : List String) :
    ∀ seen, List.Sublist (dedupeLines seen ls) ls := by
  induction ls with
  | nil => intro seen; simp [dedupeLines]
  | cons l rest ih =>
    intro seen
    by_cases h : strToLower l ∈ seen
    · simpa [dedupeLines, h] using (ih seen).cons l
    · simpa [dedupeLines, h] using (ih (strToLower l :: seen)).cons₂ l

theorem dedupeLines_first (ls : List String) : ∀ seen m, m ∈ dedupeLines seen ls →
    strToLower m ∉ seen ∧ ls.find? (fun x => strToLower x == strToLower m) = some m := by
  induction ls with
  | nil => intro seen m hm; simp [dedupeLines] at hm
  | cons l rest ih =>
    intro seen m hm
    by_cases h : strToLower l ∈ seen
    · rw [dedupeLines, if_pos h] at hm
      obtain ⟨hns, hf⟩ := ih seen m hm
      have hne : strToLower l ≠ strToLower m := fun he => hns (he ▸ h)
      refine ⟨hns, ?_⟩
      rw [List.find?_cons_of_neg, hf]
      simp [hne]
    · rw [dedupeLines, if_neg h] at hm
      rcases List.mem_cons.mp hm with rfl | hm'
      · exact ⟨h, by rw [List.find?_cons_of_pos] ; simp⟩
      · obtain ⟨hns, hf⟩ := ih _ m hm'
        have hne : strToLower m ≠ strToLower l := fun he => hns (by simp [he])
        refine ⟨fun hs => hns (List.mem_cons_of_mem _ hs), ?_⟩
        rw [List.find?_cons_of_neg, hf]
        simp only [beq_iff_eq]
        exact fun he => hne he.symm

theorem dedupeLines_covers (ls : List String) : ∀ seen l, l ∈ ls → strToLower l ∉ seen →
    ∃ m ∈ dedupeLines seen ls, strToLower m = strToLower l := by
  induction ls with
  | nil => simp
  | cons a rest ih =>
    intro seen l hl hns
    by_cases h : strToLower a ∈ seen
    · rw [dedupeLines, if_pos h]
      rcases List.mem_cons.mp hl with rfl | hl'
      · exact absurd h hns
      · exact ih seen l hl' hns
    · rw [dedupeLines, if_neg h]
      rcases List.mem_cons.mp hl with rfl | hl'
      · exact ⟨l, List.mem_cons_self _ _, rfl⟩
      · by_cases he : strToLower l = strToLower a
        · exact ⟨a, List.mem_cons_self _ _, he.symm⟩
        · obtain ⟨m, hm, hkey⟩ := ih (strToLower a :: seen) l hl' (by
            intro hmem
            rcases List.mem_cons.mp hmem with h1 | h2
            · exact he h1
            · exact hns h2)
          exact ⟨m, List.mem_cons_of_mem _ hm, hkey⟩

/-! Helper lemmas about the PR selection stage. -/

theorem applySelection_getElem? (tok : String) : ∀ (entries : List CandidateEntry) (i j : Nat),
    (applySelection entries i tok)[j]? =
      if j = i then (entries[j]?).map (updEntry tok) else entries[j]? := by
  intro entries
  induction entries with
  | nil => intro i j; simp [applySelection]
  | cons f rest ih =>
    intro i j
    cases i with
    | zero =>
      cases j with
      | zero => simp [applySelection]
      | succ j => simp [applySelection]
    | succ i =>
      cases j with
      | zero => simp [applySelection]
      | succ j => simpa [applySelection] using ih i j

theorem applySelection_length : ∀ (entries : List CandidateEntry) (i : Nat) (tok : String),
    (applySelection entries i tok).length = entries.length := by
  intro entries
  induction entries with
  | nil => intro i tok; rfl
  | cons f rest ih =>
    intro i tok
    cases i with
    | zero => simp [applySelection]
    | succ i => simp [applySelection, ih]

theorem applySelection_selected_count (tok : String) :
    ∀ (entries : List CandidateEntry) (i : Nat), (∀ e ∈ entries, e.selected = false) →
    ((applySelection entries i tok).filter (fun e => e.selected)).length ≤ 1 := by
  intro entries
  induction entries with
  | nil => intro i h; simp [applySelection]
  | cons f rest ih =>
    intro i h
    have hrest : ∀ e ∈ rest, e.selected = false := fun e he => h e (List.mem_cons_of_mem _ he)
    have hrestnil : rest.filter (fun e => e.selected) = [] := by
      rw [List.filter_eq_nil_iff]
      intro e he
      simp [hrest e he]
    cases i with
    | zero => simp [applySelection, updEntry, List.filter_cons, hrestnil]
    | succ i =>
      have hf : f.selected = false := h f (List.mem_cons_self _ _)
      simpa [applySelection, List.filter_cons, hf] using ih i hrest

theorem applySelection_email (tok : String) :
    ∀ (entries : List CandidateEntry) (i : Nat), (∀ e ∈ entries, e.selected = false) →
    ∀ e ∈ applySelection entries i tok, e.selected = true →
      e.email = some (strToLower tok ++ "@unravel.tech") := by
  intro entries
  induction entries with
  | nil => intro i h e he; simp [applySelection] at he
  | cons f rest ih =>
    intro i h e he hsel
    have hrest : ∀ e ∈ rest, e.selected = false := fun e he => h e (List.mem_cons_of_mem _ he)
    cases i with
    | zero =>
      rcases List.mem_cons.mp he with rfl | he'
      · simp [updEntry]
      · exact absurd hsel (by simp [hrest e he'])
    | succ i =>
      rcases List.mem_cons.mp he with rfl | he'
      · exact absurd hsel (by simp [h e (List.mem_cons_self _ _)])
      · exact ih i hrest e he' hsel

theorem findMatchIdx_some_lt (tok : String) : ∀ (entries : List CandidateEntry) (i : Nat),
    findMatchIdx tok entries = Except.ok (some i) → i < entries.length := by
  intro entries
  induction entries with
  | nil => intro i h; simp [findMatchIdx] at h
  | cons f rest ih =>
    intro i h
    rw [findMatchIdx] at h
    cases hem : entryMatch tok f with
    | error e => rw [hem] at h; cases h
    | ok b =>
      rw [hem] at h
      cases b with
      | true =>
        simp only at h
        cases h
        simp
      | false =>
        simp only at h
        cases hrec : findMatchIdx tok rest with
        | error e => rw [hrec] at h; cases h
        | ok r =>
          rw [hrec] at h
          cases r with
          | none => cases h
          | some k =>
            simp only at h
            cases h
            have := ih k hrec
            simpa using Nat.succ_lt_succ this

theorem entryMatch_ok_of_good (tok : String) (f : CandidateEntry) (h : goodEntry f = true) :
    ∃ b, entryMatch tok f = Except.ok b := by
  cases hn : f.name with
  | none => simp [goodEntry, hn] at h
  | some s =>
    cases hs : pySplitWs s with
    | nil => simp [goodEntry, hn, hs] at h
    | cons w ws =>
      exact ⟨strToLower tok == strToLower w || strContains (strToLower tok) (strToLower s),
        by simp [entryMatch, hn, hs]⟩

theorem findMatchIdx_ok_of_good (tok : String) : ∀ (entries : List CandidateEntry),
    (∀ f ∈ entries, goodEntry f = true) → ∃ r, findMatchIdx tok entries = Except.ok r := by
  intro entries
  induction entries with
  | nil => intro h; exact ⟨none, rfl⟩
  | cons f rest ih =>
    intro h
    obtain ⟨b, hb⟩ := entryMatch_ok_of_good tok f (h f (List.mem_cons_self _ _))
    obtain ⟨r, hr⟩ := ih (fun e he => h e (List.mem_cons_of_mem _ he))
    cases b with
    | true => exact ⟨some 0, by rw [findMatchIdx, hb]⟩
    | false =>
      cases r with
      | none => exact ⟨none, by rw [findMatchIdx, hb, hr]⟩
      | some i => exact ⟨some (i + 1), by rw [findMatchIdx, hb, hr]⟩

theorem selectLoop_some (entries : List CandidateEntry) :
    ∀ (toks : List String) (tok : String) (i : Nat),
    selectLoop entries toks = Except.ok (some (tok, i)) →
    _has_pr_name_parts tok = true ∧ i < entries.length := by
  intro toks
  induction toks with
  | nil => intro tok i h; simp [selectLoop] at h
  | cons t rest ih =>
    intro tok i h
    rw [selectLoop] at h
    by_cases hpr : _has_pr_name_parts t
    · rw [if_pos hpr] at h
      cases hfm : findMatchIdx t entries with
      | error e => rw [hfm] at h; cases h
      | ok r =>
        rw [hfm] at h
        cases r with
        | none => exact ih tok i h
        | some j =>
          simp only [Except.ok.injEq, Option.some.injEq, Prod.mk.injEq] at h
          obtain ⟨rfl, rfl⟩ := h
          exact ⟨hpr, findMatchIdx_some_lt _ _ _ hfm⟩
    · rw [if_neg hpr] at h
      exact ih tok i h

theorem selectLoop_ok_of_good (entries : List CandidateEntry)
    (hg : ∀ f ∈ entries, goodEntry f = true) :
    ∀ toks : List String, ∃ r, selectLoop entries toks = Except.ok r := by
  intro toks
  induction toks with
  | nil => exact ⟨none, rfl⟩
  | cons t rest ih =>
    obtain ⟨r, hr⟩ := ih
    by_cases hpr : _has_pr_name_parts t
    · obtain ⟨m, hm⟩ := findMatchIdx_ok_of_good t entries hg
      cases m with
      | none => exact ⟨r, by rw [selectLoop, if_pos hpr, hm]; exact hr⟩
      | some i => exact ⟨some (t, i), by rw [selectLoop, if_pos hpr, hm]⟩
    · exact ⟨r, by rw [selectLoop, if_neg hpr]; exact hr⟩

theorem selectPR_ok_cases (entries : List CandidateEntry) (answer : String)
    (out : List CandidateEntry) (h : selectPR entries answer = Except.ok out) :
    out = entries ∨ ∃ tok i, _has_pr_name_parts tok = true ∧ i < entries.length ∧
      out = applySelection entries i tok := by
  rw [selectPR] at h
  by_cases hc : strTrim answer = "" ∨ strToUpper (strTrim answer) = "NONE"
  · rw [if_pos hc] at h
    cases h
    exact Or.inl rfl
  · rw [if_neg hc] at h
    cases hsl : selectLoop entries (pickedNames (strTrim answer)) with
    | error e => rw [hsl] at h; cases h
    | ok r =>
      rw [hsl] at h
      cases r with
      | none =>
        cases h
        exact Or.inl rfl
      | some p =>
        obtain ⟨tok, i⟩ := p
        simp only at h
        cases h
        obtain ⟨hpr, hlt⟩ := selectLoop_some entries _ tok i hsl
        exact Or.inr ⟨tok, i, hpr, hlt, rfl⟩

theorem selectPR_ok_of_good (entries : List CandidateEntry) (answer : String)
    (hg : ∀ f ∈ entries, goodEntry f = true) :
    ∃ out, selectPR entries answer = Except.ok out := by
  rw [selectPR]
  by_cases hc : strTrim answer = "" ∨ strToUpper (strTrim answer) = "NONE"
  · exact ⟨entries, by rw [if_pos hc]⟩
  · rw [if_neg hc]
    obtain ⟨r, hr⟩ := selectLoop_ok_of_good entries hg (pickedNames (strTrim answer))
    cases r with
    | none => exact ⟨entries, by rw [hr]⟩
    | some p => exact ⟨applySelection entries p.2 p.1, by rw [hr]⟩

theorem selectPR_ok_length (entries : List CandidateEntry) (answer : String)
    (out : List CandidateEntry) (h : selectPR entries answer = Except.ok out) :
    out.length = entries.length := by
  rcases selectPR_ok_cases entries answer out h with rfl | ⟨tok, i, _, _, rfl⟩
  · rfl
  · exact applySelection_length entries i tok

theorem resolveEntries_ne_nil (d : List String) : resolveEntries d ≠ [] := by
  rw [resolveEntries]
  by_cases hemp : ((d.map parseLine).filter (fun c => c.name.isSome)).isEmpty = true
  · rw [if_pos hemp]
    simp
  · rw [if_neg hemp]
    intro hnil
    rw [hnil] at hemp
    exact hemp rfl

theorem fetchGo_all_error_fst (msgs : Nat → String) : ∀ (left attempt : Nat),
    (fetchGo (fun i => Except.error (msgs i)) attempt left).1 =
      "[fetch error: " ++ msgs (attempt + left) ++ "]" := by
  intro left
  induction left with
  | zero => intro attempt; simp [fetchGo]
  | succ n ih =>
    intro attempt
    simp only [fetchGo]
    rw [show attempt + (n + 1) = attempt + 1 + n by omega]
    exact ih (attempt + 1)

/-- C9: _has_pr_name_parts full_name is true iff "pr" occurs
case-insensitively in the first or in the last whitespace-separated
token of the name, a middle-only match does not count; in particular it
is false on "Vedang Prajwalit Manerikar" and true on "Express Chopra". -/
theorem C9_has_pr_first_or_last_token :
    (∀ s : String,
      _has_pr_name_parts s = true ↔
        ∃ f l, (pySplitWs (strToLower (strTrim s))).head? = some f ∧
               (pySplitWs (strToLower (strTrim s))).getLast? = some l ∧
               (strContains "pr" f = true ∨ strContains "pr" l = true)) ∧
    _has_pr_name_parts "Vedang Prajwalit Manerikar" = false ∧
    _has_pr_name_parts "Express Chopra" = true := by
  refine ⟨?_, by decide, by decide⟩
  intro s
  rcases h : pySplitWs (strToLower (strTrim s)) with _ | ⟨p, _ | ⟨q, rest⟩⟩
  · simp [_has_pr_name_parts, h]
  · simp [_has_pr_name_parts, h]
  · have hx : ∃ x, (q :: rest).getLast? = some x := by
      cases hq : (q :: rest).getLast? with
      | none => simp at hq
      | some x => exact ⟨x, rfl⟩
    obtain ⟨x, hx⟩ := hx
    have hD : (q :: rest).getLastD "" = x := by
      rw [List.getLastD_eq_getLast?, hx]
      rfl
    simp [_has_pr_name_parts, h, hD, List.getLast?_cons_cons, hx, Bool.or_eq_true]

/-- Witness for C9 at the concrete name "Express Chopra". -/
theorem C9_witness_express_chopra :
    ∃ f l, (pySplitWs (strToLower (strTrim "Express Chopra"))).head? = some f ∧
           (pySplitWs (strToLower (strTrim "Express Chopra"))).getLast? = some l ∧
           (strContains "pr" f = true ∨ strContains "pr" l = true) :=
  (C9_has_pr_first_or_last_token.1 "Express Chopra").mp (by decide)

/-- C2: a token failing the deterministic "pr" first-or-last-word check
is skipped by the selection loop and never causes a selection; in
particular the single candidate "Vedang Manerikar :: reason" with model
answer "Vedang" is returned unchanged, nothing selected. -/
theorem C2_unverified_token_skipped :
    (∀ (entries : List CandidateEntry) (rest : List String) (tok : String),
      _has_pr_name_parts tok = false →
      selectLoop entries (tok :: rest) = selectLoop entries rest) ∧
    find_founder [Except.ok "Vedang Manerikar :: reason"] "Vedang" =
      Except.ok [⟨some "Vedang Manerikar", "reason", none, false⟩] := by
  constructor
  · intro entries rest tok h
    rw [selectLoop, if_neg]
    simp [h]
  · rfl

/-- Witness for C2 at the concrete token "Vedang". -/
theorem C2_witness_vedang :
    selectLoop [] ["Vedang"] = selectLoop [] [] :=
  C2_unverified_token_skipped.1 [] [] "Vedang" (by decide)

/-- C1 (amended): on the first verified matching token the selector
marks exactly one entry selected, with email equal to the lower-cased
WHOLE matched token followed by "@unravel.tech" (the source uses the
full token, not only its first word); for candidates
["Prajwalit Bhopale :: founder", "Vedang Manerikar :: co-founder"] and
answer "Prajwalit" exactly the first entry is selected with email
"prajwalit@unravel.tech" and the second is unchanged. -/
theorem C1_single_selection_with_token_email :
    (∀ (entries : List CandidateEntry) (answer : String) (out : List CandidateEntry),
      (∀ e ∈ entries, e.selected = false) → selectPR entries answer = Except.ok out →
      ((out.filter (fun e => e.selected)).length ≤ 1 ∧
       ∀ e ∈ out, e.selected = true → ∃ tok, _has_pr_name_parts tok = true ∧
         e.email = some (strToLower tok ++ "@unravel.tech"))) ∧
    selectPR [⟨some "Prajwalit Bhopale", "founder", none, false⟩,
        ⟨some "Vedang Manerikar", "co-founder", none, false⟩] "Prajwalit" =
      Except.ok [⟨some "Prajwalit Bhopale", "founder", some "prajwalit@unravel.tech", true⟩,
        ⟨some "Vedang Manerikar", "co-founder", none, false⟩] := by
  constructor
  · intro entries answer out hunsel hok
    rcases selectPR_ok_cases entries answer out hok with rfl | ⟨tok, i, hpr, hlt, rfl⟩
    · constructor
      · have hnil : out.filter (fun e => e.selected) = [] := by
          rw [List.filter_eq_nil_iff]
          intro e he
          simp [hunsel e he]
        rw [hnil]
        simp
      · intro e he hsel
        exact absurd hsel (by simp [hunsel e he])
    · exact ⟨applySelection_selected_count tok entries i hunsel,
        fun e he hsel => ⟨tok, hpr, applySelection_email tok entries i hunsel e he hsel⟩⟩
  · rfl

/-- Witness for C1 at the concrete two-candidate run. -/
theorem C1_witness_prajwalit :
    (([(⟨some "Prajwalit Bhopale", "founder", some "prajwalit@unravel.tech",
          true⟩ : CandidateEntry),
        ⟨some "Vedang Manerikar", "co-founder", none, false⟩].filter
          (fun e => e.selected)).length ≤ 1 ∧
     ∀ e ∈ [(⟨some "Prajwalit Bhopale", "founder", some "prajwalit@unravel.tech",
          true⟩ : CandidateEntry),
        ⟨some "Vedang Manerikar", "co-founder", none, false⟩],
       e.selected = true → ∃ tok, _has_pr_name_parts tok = true ∧
         e.email = some (strToLower tok ++ "@unravel.tech")) :=
  C1_single_selection_with_token_email.1
    [⟨some "Prajwalit Bhopale", "founder", none, false⟩,
     ⟨some "Vedang Manerikar", "co-founder", none, false⟩] "Prajwalit" _
    (by decide) C1_single_selection_with_token_email.2

/-- Counterexample for C1 as stated: with the multi-word answer token
"Prajwalit Bhopale" the derived email is the lower-cased whole token,
not lowercase(first word of the token) + "@unravel.tech". -/
theorem C1_counterexample_whole_token_email :
    selectPR [⟨some "Prajwalit Bhopale", "founder", none, false⟩] "Prajwalit Bhopale" =
      Except.ok [⟨some "Prajwalit Bhopale", "founder",
        some "prajwalit bhopale@unravel.tech", true⟩] ∧
    (pySplitWs "Prajwalit Bhopale").head? = some "Prajwalit" ∧
    ("prajwalit bhopale@unravel.tech" : String) ≠ strToLower "Prajwalit" ++ "@unravel.tech" := by
  refine ⟨rfl, by decide, by decide⟩

/-- C8: an empty or NONE answer, and an answer none of whose verified
tokens matches, leave all entries unchanged; and in any successful run
every entry other than the single matched one is returned exactly as
the resolver produced it. -/
theorem C8_no_selection_frame :
    (∀ (entries : List CandidateEntry) (answer : String),
      strTrim answer = "" ∨ strToUpper (strTrim answer) = "NONE" →
      selectPR entries answer = Except.ok entries) ∧
    (∀ (entries : List CandidateEntry) (answer : String),
      selectLoop entries (pickedNames (strTrim answer)) = Except.ok none →
      selectPR entries answer = Except.ok entries) ∧
    (∀ (entries : List CandidateEntry) (answer : String) (out : List CandidateEntry),
      selectPR entries answer = Except.ok out →
      out = entries ∨ ∃ i tok, i < entries.length ∧ _has_pr_name_parts tok = true ∧
        (∀ j, j ≠ i → out[j]? = entries[j]?) ∧
        out[i]? = (entries[i]?).map (updEntry tok)) := by
  refine ⟨?_, ?_, ?_⟩
  · intro entries answer h
    rw [selectPR, if_pos h]
  · intro entries answer h
    rw [selectPR]
    by_cases hc : strTrim answer = "" ∨ strToUpper (strTrim answer) = "NONE"
    · rw [if_pos hc]
    · rw [if_neg hc, h]
  · intro entries answer out hok
    rcases selectPR_ok_cases entries answer out hok with rfl | ⟨tok, i, hpr, hlt, rfl⟩
    · exact Or.inl rfl
    · refine Or.inr ⟨i, tok, hlt, hpr, ?_, ?_⟩
      · intro j hj
        rw [applySelection_getElem?, if_neg hj]
      · rw [applySelection_getElem?, if_pos rfl]

/-- Witness for C8 at the empty answer. -/
theorem C8_witness_empty_answer :
    selectPR [⟨some "Prajwalit Bhopale", "founder", none, false⟩] "" =
      Except.ok [⟨some "Prajwalit Bhopale", "founder", none, false⟩] :=
  C8_no_selection_frame.1 _ "" (Or.inl (by decide))

/-- C3: the resolver keeps exactly the populated-name entries; when all
parsed entries are absence-marked it returns a single placeholder whose
reason is the parsed reason of the first line, or a generic default when
there were no lines; in particular extractor output
"NONE :: no founders mentioned" from every query yields exactly one
absent entry with reason "no founders mentioned". -/
theorem C3_resolver_filter_and_placeholder :
    (∀ lines : List String,
      (lines.map parseLine).filter (fun c => c.name.isSome) ≠ [] →
      resolveEntries lines = (lines.map parseLine).filter (fun c => c.name.isSome)) ∧
    (∀ (l0 : String) (rest : List String),
      ((l0 :: rest).map parseLine).filter (fun c => c.name.isSome) = [] →
      resolveEntries (l0 :: rest) =
        [⟨none, (parseLine l0).reason, none, false⟩]) ∧
    resolveEntries [] = [⟨none, "No founder information found.", none, false⟩] ∧
    (∀ answer : String,
      find_founder (List.replicate 4 (Except.ok "NONE :: no founders mentioned")) answer =
        Except.ok [⟨none, "no founders mentioned", none, false⟩]) := by
  refine ⟨?_, ?_, rfl, fun answer => rfl⟩
  · intro lines h
    rw [resolveEntries, if_neg (by simpa [List.isEmpty_iff] using h)]
  · intro l0 rest h
    rw [resolveEntries, if_pos (by rw [h] ; rfl)]
    simp [mkPlaceholder]

/-- Witness for C3 at a single populated line. -/
theorem C3_witness_populated_line :
    resolveEntries ["X :: y"] = (["X :: y"].map parseLine).filter (fun c => c.name.isSome) :=
  C3_resolver_filter_and_placeholder.1 ["X :: y"] (by decide)

/-- Counterexample for C4 as stated: the separator-free line "NONE"
contains none of the three negation phrases, yet the code
absence-marks it (the source also tests for the substring "none"). -/
theorem C4_counterexample_plain_none_line :
    strContains "::" "NONE" = false ∧
    (strContains "does not" (strToLower "NONE") ||
     strContains "no information" (strToLower "NONE") ||
     strContains "not explicitly" (strToLower "NONE")) = false ∧
    (parseLine "NONE").name = none := by
  decide

/-- C4 (amended): a separator-free line is absence-marked with the line
as reason exactly when its lower-cased form contains "none", "does
not", "no information" or "not explicitly"; otherwise the whole
stripped line becomes the name. -/
theorem C4_separator_free_rule :
    ∀ line : String, strContains "::" line = false →
      parseLine line =
        (if strContains "none" (strToLower line) || strContains "does not" (strToLower line) ||
            strContains "no information" (strToLower line) ||
            strContains "not explicitly" (strToLower line) then
          { name := none, reason := strTrim line, email := none, selected := false }
        else
          { name := some (strTrim line), reason := "Supporting evidence found in source text.",
            email := none, selected := false }) := by
  intro line h
  rw [parseLine, if_neg (by simp [h])]

/-- Witness for C4 at the concrete line "Hello". -/
theorem C4_witness_hello :
    parseLine "Hello" =
      (if strContains "none" (strToLower "Hello") ||
          strContains "does not" (strToLower "Hello") ||
          strContains "no information" (strToLower "Hello") ||
          strContains "not explicitly" (strToLower "Hello") then
        { name := none, reason := strTrim "Hello", email := none, selected := false }
      else
        { name := some (strTrim "Hello"),
          reason := "Supporting evidence found in source text.",
          email := none, selected := false }) :=
  C4_separator_free_rule "Hello" (by decide)

/-- Counterexample for the concrete example of C5: "A :: x" and "a :: y"
differ in their reason part, whole-line case-insensitive comparison
keeps both, so nothing is merged. -/
theorem C5_counterexample_reason_sensitive :
    dedupeLines [] ["A :: x", "a :: y", "B :: z"] = ["A :: x", "a :: y", "B :: z"] ∧
    dedupeLines [] ["A :: x", "a :: y", "B :: z"] ≠ ["A :: x", "B :: z"] := by
  decide

/-- C5 (amended): deduplication compares whole lines case-insensitively,
keeps only the first occurrence of each line (up to case), preserves
first-seen order, and represents every input line; the example lines
must agree case-insensitively as whole lines to be merged, as in
["A :: x", "a :: x", "B :: z"]. -/
theorem C5_dedupe_case_insensitive_first_wins :
    (∀ ls : List String, List.Sublist (dedupeLines [] ls) ls) ∧
    (∀ (ls : List String) (m : String), m ∈ dedupeLines [] ls →
      ls.find? (fun x => strToLower x == strToLower m) = some m) ∧
    (∀ (ls : List String) (l : String), l ∈ ls →
      ∃ m ∈ dedupeLines [] ls, strToLower m = strToLower l) ∧
    dedupeLines [] ["A :: x", "a :: x", "B :: z"] = ["A :: x", "B :: z"] := by
  refine ⟨fun ls => dedupeLines_sublist ls [], ?_, ?_, by decide⟩
  · intro ls m hm
    exact (dedupeLines_first ls [] m hm).2
  · intro ls l hl
    exact dedupeLines_covers ls [] l hl (by simp)

/-- Witness for C5 at a two-line list merged case-insensitively. -/
theorem C5_witness_case_merge :
    ∃ m ∈ dedupeLines [] ["A :: x", "a :: x"], strToLower m = strToLower "a :: x" :=
  C5_dedupe_case_insensitive_first_wins.2.2.1 ["A :: x", "a :: x"] "a :: x" (by decide)

/-- Counterexample for C6 as stated: an extractor line whose name part
is empty combined with a verified selector token makes the pipeline
raise instead of returning a result list. -/
theorem C6_counterexample_selector_raises :
    find_founder [Except.ok ":: evidence"] "Pratik" = Except.error () := rfl

/-- C6 (amended): every successful run returns a non-empty list, and
the pipeline is guaranteed to succeed whenever no parsed candidate has
a populated name without words (the ":: reason" shape); with such an
empty-string name and a verified matching token the selector raises. -/
theorem C6_nonempty_unless_empty_name :
    (∀ (extracted : List (Except String String)) (answer : String) (out : List CandidateEntry),
      find_founder extracted answer = Except.ok out → out ≠ []) ∧
    (∀ (extracted : List (Except String String)) (answer : String),
      (∀ c ∈ (dedupeLines [] (extracted.flatMap extractLines)).map parseLine,
        c.name.isSome = true → goodEntry c = true) →
      ∃ out, find_founder extracted answer = Except.ok out ∧ out ≠ []) := by
  constructor
  · intro extracted answer out h
    rw [find_founder] at h
    by_cases hemp : (((dedupeLines [] (extracted.flatMap extractLines)).map parseLine).filter
        (fun c => c.name.isSome)).isEmpty = true
    · rw [if_pos hemp] at h
      injection h with h2
      rw [← h2]
      exact resolveEntries_ne_nil _
    · rw [if_neg hemp] at h
      have hl := selectPR_ok_length _ _ _ h
      intro hnil
      rw [hnil] at hl
      have h0 : (((dedupeLines [] (extracted.flatMap extractLines)).map parseLine).filter
          (fun c => c.name.isSome)) = [] := List.length_eq_zero.mp hl.symm
      exact hemp (by rw [h0] ; rfl)
  · intro extracted answer hgood
    by_cases hemp : (((dedupeLines [] (extracted.flatMap extractLines)).map parseLine).filter
        (fun c => c.name.isSome)).isEmpty = true
    · refine ⟨resolveEntries (dedupeLines [] (extracted.flatMap extractLines)), ?_,
        resolveEntries_ne_nil _⟩
      rw [find_founder, if_pos hemp]
    · have hg : ∀ f ∈ (((dedupeLines [] (extracted.flatMap extractLines)).map parseLine).filter
          (fun c => c.name.isSome)), goodEntry f = true := by
        intro f hf
        have hmf := List.mem_filter.mp hf
        exact hgood f hmf.1 (by simpa using hmf.2)
      obtain ⟨out, hout⟩ := selectPR_ok_of_good _ answer hg
      refine ⟨out, ?_, ?_⟩
      · rw [find_founder, if_neg hemp]
        exact hout
      · have hl := selectPR_ok_length _ _ _ hout
        intro hnil
        rw [hnil] at hl
        have h0 : (((dedupeLines [] (extracted.flatMap extractLines)).map parseLine).filter
            (fun c => c.name.isSome)) = [] := List.length_eq_zero.mp hl.symm
        exact hemp (by rw [h0] ; rfl)

/-- Witness for C6 at a run with one well-formed candidate and a NONE
answer. -/
theorem C6_witness_good_run :
    ∃ out, find_founder [Except.ok "Prajwalit Bhopale :: founder"] "NONE" = Except.ok out ∧
      out ≠ [] :=
  C6_nonempty_unless_empty_name.2 [Except.ok "Prajwalit Bhopale :: founder"] "NONE" (by decide)

/-- C7: with every network attempt failing, the fetcher returns the
sentinel error string of the last attempt instead of raising, for any
retry budget; with the default budget of 2 retries used by the source it makes
three attempts, sleeping the exponential back-off delays 0.8s and 1.6s
(recorded in tenths of a second); a cached page is returned as is. -/
theorem C7_fetch_sentinel_on_failure :
    (∀ (msgs : Nat → String) (retries : Nat),
      _fetch_html none (fun i => Except.error (msgs i)) retries =
        "[fetch error: " ++ msgs retries ++ "]") ∧
    (∀ msgs : Nat → String,
      (fetchGo (fun i => Except.error (msgs i)) 0 2).2 = [8 * 2 ^ 0, 8 * 2 ^ 1]) ∧
    (∀ (t : String) (att : Nat → Except String String) (retries : Nat),
      _fetch_html (some t) att retries = t) := by
  refine ⟨?_, fun msgs => rfl, fun t att retries => rfl⟩
  intro msgs retries
  have h := fetchGo_all_error_fst msgs retries 0
  rw [Nat.zero_add] at h
  exact h

/-- Witness for C7 at a constant failure message. -/
theorem C7_witness_all_fail :
    _fetch_html none (fun _ => Except.error "boom") 2 = "[fetch error: boom]" :=
  C7_fetch_sentinel_on_failure.1 (fun _ => "boom") 2

/-- C10: an extractor line of the form ":: reason" produces an entry
whose name is the empty string; it passes the populated-name filter and
suppresses the absence placeholder, and the first-word
comparison of the selector against it raises, aborting the pipeline. -/
theorem C10_empty_name_entry_crashes_selector :
    parseLine ":: some reason" =
      ⟨some "", "some reason", none, false⟩ ∧
    ([":: some reason"].map parseLine).filter (fun c => c.name.isSome) =
      [⟨some "", "some reason", none, false⟩] ∧
    resolveEntries [":: some reason"] = [⟨some "", "some reason", none, false⟩] ∧
    _has_pr_name_parts "Pro" = true ∧
    entryMatch "Pro" ⟨some "", "some reason", none, false⟩ = Except.error () ∧
    find_founder [Except.ok ":: some reason"] "Pro" = Except.error () := by
  exact ⟨by decide, by decide, by decide, by decide, rfl, rfl⟩
